import Mathlib

/-!
Verification of the chunked snapshot-dump engine (`dumper`) of the mysql
package: chunk planning (`getDumpEntries`), value encoding (the inline
encoder of `getChunkData` together with `needsQuoting` and
`stringOfBackslashAndQuoteChars`), chunk extraction (`getChunkData`),
the worker loop (`worker`) and the orchestrator entry point (`Dump`).

The database is modelled as the outcome the driver hands back to the
code: a chunk query either fails, fails at `rows.Columns()`, or yields
a column-name list plus a sequence of row-scan outcomes (each row scan
either fails or yields one nullable byte-string per column).
-/

/-- The character-set constant `stringOfBackslashAndQuoteChars`, byte for
byte as the Go source literal spells it.  Note that the source literal
reads `﹨uff3c`: the second escape is missing its backslash, so the
string contains U+FE68 followed by the five plain ASCII characters
`u`, `f`, `f`, `3`, `c` (instead of U+FF3C). -/
def stringOfBackslashAndQuoteChars : String :=
  "\u005c\u00a5\u0160\u20a9\u2216\ufe68uff3c\u0022\u0027\u0060\u00b4\u02b9\u02ba\u02bb\u02bc\u02c8\u02ca\u02cb\u02d9\u0300\u0301\u2018\u2019\u201a\u2032\u2035\u275b\u275c\uff07"

/-- `needsQuoting` from the source: `strings.ContainsAny(s, stringOfBackslashAndQuoteChars)`,
i.e. true iff some rune of `s` occurs in the constant. -/
def needsQuoting (s : String) : Bool :=
  s.data.any (fun c => stringOfBackslashAndQuoteChars.data.contains c)

/-- The escaping loop of `getChunkData` (lines 158-164): walk the value
rune by rune; a rune whose one-character string satisfies `needsQuoting`
is preceded by a literal backslash, every other rune passes through. -/
def escapeRunes : List Char → List Char
  | [] => []
  | c :: rest =>
    (if needsQuoting (String.mk [c]) then ['\\', c] else [c]) ++ escapeRunes rest

/-- The per-cell encoding of `getChunkData` (lines 148-168): a NULL cell
becomes the bare token `NULL`; otherwise the raw text, escaped only when
`needsQuoting` holds, is wrapped in single quotes. -/
def encodeValue : Option String → String
  | none => "NULL"
  | some s =>
    let value := if needsQuoting s then String.mk (escapeRunes s.data) else s
    "\u0027" ++ value ++ "\u0027"

/-- One scanned row: one nullable byte-string per column, in the driver's
column order (the order `rows.Scan` fills `values`). -/
abbrev DbRow := List (Option String)

/-- The tuple built for one row (line 171): encoded cells joined by commas
and parenthesised. -/
def encodeRow (r : DbRow) : String :=
  "(" ++ String.intercalate "," (r.map encodeValue) ++ ")"

/-- The `dumpEntry` struct (minus the driver-owned `colBuffer` scratch
buffer).  Fields not listed in the planner's struct literal keep their Go
zero values: empty `Values`, empty `data_text`, nil `err`. -/
structure DumpEntry where
  SystemVariablesStatement : String
  DbSQL : String
  TbSQL : String
  Values : String
  RowsCount : Nat
  Offset : Nat
  Counter : Nat
  data_text : List String
  err : Option String
deriving Repr, DecidableEq

/-- Outcome of one chunk's `SELECT * ... LIMIT ... OFFSET ...` query as
the driver reports it to `getChunkData`: the query itself may fail,
`rows.Columns()` may fail, or the driver yields column names and a
sequence of row-scan outcomes. -/
inductive DbChunkOutcome where
  | queryErr (e : String)
  | columnsErr (e : String)
  | ok (columns : List String) (rows : List (Except String DbRow))
deriving Repr

/-- Modelled from the spec: `usql.EscapeName` lives outside the given
sources; the spec's statement template writes the identifiers directly
as `<schema>.<table>`, so name escaping is modelled as the identity. -/
def EscapeName (s : String) : String := s

/-- The upsert statement assembled at lines 174-188, with the raw
string's exact newlines and tabs: `insert into schema.table (columns)
values tuples on duplicate key update c0=VALUES(c0)` where `c0` is
`columns[0]`. -/
def insertStatement (schema table : String) (columns : List String)
    (tuples : List String) (c0 : String) : String :=
  "\n\t\t\tinsert into " ++ EscapeName schema ++ "." ++ EscapeName table ++
  "\n\t\t\t\t(" ++ String.intercalate "," columns ++ ")" ++
  "\n\t\t\tvalues\n\t\t\t\t" ++ String.intercalate "," tuples ++
  "\n\t\t\ton duplicate key update\n\t\t\t\t" ++ c0 ++ "=VALUES(" ++ c0 ++ ")\n\t\t"

/-- The row loop of `getChunkData` (lines 140-173): scan rows in order;
a scan failure returns that error at once (remaining rows unvisited);
a scanned row is encoded, appended to `data_text`, and bumps `Counter`. -/
def processRows (entry : DumpEntry) : List (Except String DbRow) → DumpEntry × Option String
  | [] => (entry, none)
  | Except.error e :: _ => (entry, some e)
  | Except.ok r :: rest =>
    processRows { entry with data_text := entry.data_text ++ [encodeRow r],
                             Counter := entry.Counter + 1 } rest

/-- `getChunkData`: zero planned rows returns immediately with no query;
a query or columns failure is returned as the error; otherwise
`data_text` is reset, the rows are scanned and encoded, and on success
the upsert statement is stored in `Values`.  The result `none` models
the Go panic of indexing `columns[0]` on an empty column list; `some
(e, err?)` is the mutated entry plus the returned error. -/
def getChunkData (schema table : String) (db : DbChunkOutcome) (entry : DumpEntry) :
    Option (DumpEntry × Option String) :=
  if entry.RowsCount = 0 then some (entry, none)
  else
    match db with
    | DbChunkOutcome.queryErr e => some (entry, some e)
    | DbChunkOutcome.columnsErr e => some (entry, some e)
    | DbChunkOutcome.ok columns rows =>
      match processRows { entry with data_text := [] } rows with
      | (entry1, some e) => some (entry1, some e)
      | (entry1, none) =>
        match columns with
        | [] => none
        | c0 :: _ =>
          some ({ entry1 with
                    Values := insertStatement schema table columns entry1.data_text c0 },
                none)

/-- Round a rational to the nearest integer, ties to even — the
mantissa-rounding step of binary64 arithmetic. -/
def roundHalfEven (q : ℚ) : ℤ :=
  if q - ⌊q⌋ < 1/2 then ⌊q⌋
  else if 1/2 < q - ⌊q⌋ then ⌊q⌋ + 1
  else if ⌊q⌋ % 2 = 0 then ⌊q⌋ else ⌊q⌋ + 1

/-- The binary64 (IEEE-754 double precision, round to nearest, ties to
even) value of a nonnegative rational: the mantissa is rounded to 53
bits at the rational's binary magnitude `Int.log 2 q`.  The exponent is
unbounded, which agrees with binary64 on every magnitude `Dump` can
produce (between 2^-63 and 2^64 — no overflow, no subnormals).  This is
the value semantics of Go's `float64(...)` conversions and of IEEE
division on exact operands. -/
def roundFloat64 (q : ℚ) : ℚ :=
  if q = 0 then 0
  else (roundHalfEven (q / 2 ^ (Int.log 2 q - 52)) : ℚ) * 2 ^ (Int.log 2 q - 52)

/-- `int(math.Ceil(float64(total) / float64(chunkSize)))` from line 92,
step by step at binary64 precision: convert both operands to float64,
divide (IEEE division returns the correctly rounded exact quotient),
take the ceiling (exact on binary64 values), and convert to int
(value-preserving for every count below 2^63). -/
def goCeilDiv (total chunkSize : Nat) : Nat :=
  (⌈roundFloat64 (roundFloat64 (total : ℚ) / roundFloat64 (chunkSize : ℚ))⌉).toNat

/-- `getDumpEntries` (lines 86-108) with the row-count query's result as
input: `sliceCount = int(math.Ceil(float64(total)/float64(chunkSize)))`
at binary64 precision, floored up to 1; the i-th entry carries offset
`i * chunkSize`, the total row count, and a zero counter. -/
def getDumpEntries (total chunkSize : Nat) (sysVar dbSQL tbSQL : String) : List DumpEntry :=
  let sliceCount := goCeilDiv total chunkSize
  let sliceCount := if sliceCount = 0 then 1 else sliceCount
  (List.range sliceCount).map (fun i =>
    { SystemVariablesStatement := sysVar
      DbSQL := dbSQL
      TbSQL := tbSQL
      Values := ""
      RowsCount := total
      Offset := i * chunkSize
      Counter := 0
      data_text := []
      err := none })

/-- One iteration of the worker loop (lines 200-208) for one job and the
db outcome its query produced: run `getChunkData`, store a returned
error in the entry's `err` field, and emit the entry as the result.
`none` propagates a panic. -/
def workerStep (schema table : String) (p : DumpEntry × DbChunkOutcome) : Option DumpEntry :=
  match getChunkData schema table p.2 p.1 with
  | none => none
  | some (e, none) => some e
  | some (e, some msg) => some { e with err := some msg }

/-- The worker (lines 200-208) over the finite job stream it drains from
the channel, each job paired with its own query outcome: one result per
job, in order, unless some job panics. -/
def worker (schema table : String) (jobs : List (DumpEntry × DbChunkOutcome)) :
    Option (List DumpEntry) :=
  jobs.mapM (workerStep schema table)

/-- The error `getChunkData` returns for a job (nil when it succeeds or
panics). -/
def extractionError (schema table : String) (p : DumpEntry × DbChunkOutcome) : Option String :=
  match getChunkData schema table p.2 p.1 with
  | some (_, e?) => e?
  | none => none

/-- Synchronous outcome of `Dump` (lines 210-240): the returned error,
how many worker goroutines were started, and how many jobs are handed
to the pool. -/
structure DumpOutcome where
  error : Option String
  workersStarted : Nat
  jobsDispatched : Nat
deriving Repr, DecidableEq

/-- `Dump`: build the CREATE DATABASE statement, fetch the CREATE TABLE
statement and the row count (their query results are inputs here), plan
the entries, clamp the worker count to `min(w, len(entries))`, and
return nil at once when the clamped count is below 1; otherwise start
that many workers and dispatch every entry. -/
def Dump (sysVar : String) (w : Int) (schema _table : String) (chunkSize : Nat)
    (rowCountRes : Except String Nat) (tbSQLRes : Except String String) : DumpOutcome :=
  match tbSQLRes with
  | Except.error e => ⟨some e, 0, 0⟩
  | Except.ok tbSQL =>
    match rowCountRes with
    | Except.error e => ⟨some e, 0, 0⟩
    | Except.ok total =>
      let dbSQL := "CREATE DATABASE " ++ schema
      let entries := getDumpEntries total chunkSize sysVar dbSQL tbSQL
      let workersCount : Int := min w (entries.length : Int)
      if workersCount < 1 then ⟨none, 0, 0⟩
      else ⟨none, workersCount.toNat, entries.length⟩

/-- Boolean well-formedness of a driver outcome: a successful chunk query
for `SELECT *` on a real table reports at least one column (a MySQL
table has at least one column), which is what saves `columns[0]` from
panicking. -/
def wellFormedOutcome (p : DumpEntry × DbChunkOutcome) : Bool :=
  match p.2 with
  | DbChunkOutcome.ok columns _ => !columns.isEmpty
  | _ => true

/-- A planner-style entry (fresh from `getDumpEntries`, nonzero row
count) used as a concrete input by several witnesses. -/
def sampleEntry : DumpEntry :=
  { SystemVariablesStatement := "sv"
    DbSQL := "cd"
    TbSQL := "ct"
    Values := ""
    RowsCount := 3
    Offset := 0
    Counter := 0
    data_text := []
    err := none }

theorem processRows_preserves (rows : List (Except String DbRow)) (entry : DumpEntry) :
    (processRows entry rows).1.Values = entry.Values ∧
    (processRows entry rows).1.err = entry.err ∧
    (processRows entry rows).1.RowsCount = entry.RowsCount := by
  induction rows generalizing entry with
  | nil => simp [processRows]
  | cons r rest ih =>
    cases r with
    | error e => simp [processRows]
    | ok row => simpa [processRows] using ih _

theorem processRows_all_ok (good : List DbRow) (entry : DumpEntry) :
    processRows entry (good.map Except.ok) =
      ({ entry with data_text := entry.data_text ++ good.map encodeRow,
                    Counter := entry.Counter + good.length }, none) := by
  induction good generalizing entry with
  | nil => simp [processRows]
  | cons r rest ih =>
    simp only [List.map_cons, processRows, ih]
    cases entry
    simp [List.append_assoc]
    omega

theorem processRows_first_error (good : List DbRow) (e : String)
    (rest : List (Except String DbRow)) (entry : DumpEntry) :
    processRows entry (good.map Except.ok ++ Except.error e :: rest) =
      ({ entry with data_text := entry.data_text ++ good.map encodeRow,
                    Counter := entry.Counter + good.length }, some e) := by
  induction good generalizing entry with
  | nil => simp [processRows]
  | cons r g ih =>
    simp only [List.map_cons, List.cons_append, processRows, List.append_eq]
    rw [ih]
    cases entry
    simp [List.append_assoc]
    omega

theorem insertStatement_ne_empty (schema table c0 : String)
    (columns tuples : List String) :
    insertStatement schema table columns tuples c0 ≠ "" := by
  intro h
  have h2 := congrArg String.length h
  simp only [insertStatement, String.length_append, String.length_empty] at h2
  have h3 : ("\n\t\t\tinsert into ").length = 16 := by decide
  omega

theorem getChunkData_rows_ok (schema table : String) (c0 : String) (cs : List String)
    (rows : List DbRow) (entry : DumpEntry) (hR : entry.RowsCount ≠ 0) :
    getChunkData schema table (DbChunkOutcome.ok (c0 :: cs) (rows.map Except.ok)) entry =
      some ({ entry with data_text := rows.map encodeRow,
                         Counter := entry.Counter + rows.length,
                         Values := insertStatement schema table (c0 :: cs)
                                     (rows.map encodeRow) c0 }, none) := by
  have hp := processRows_all_ok rows { entry with data_text := [] }
  simp only [getChunkData, if_neg hR, hp]
  cases entry
  simp

theorem getChunkData_rows_first_error (schema table : String) (columns : List String)
    (good : List DbRow) (e : String) (rest : List (Except String DbRow))
    (entry : DumpEntry) (hR : entry.RowsCount ≠ 0) :
    getChunkData schema table
        (DbChunkOutcome.ok columns (good.map Except.ok ++ Except.error e :: rest)) entry =
      some ({ entry with data_text := good.map encodeRow,
                         Counter := entry.Counter + good.length }, some e) := by
  have hp := processRows_first_error good e rest { entry with data_text := [] }
  simp only [getChunkData, if_neg hR, hp]
  cases entry
  simp

theorem getChunkData_preserves_err (schema table : String) (db : DbChunkOutcome)
    (entry e1 : DumpEntry) (r : Option String)
    (h : getChunkData schema table db entry = some (e1, r)) : e1.err = entry.err := by
  by_cases hR : entry.RowsCount = 0
  · simp only [getChunkData, if_pos hR, Option.some.injEq, Prod.mk.injEq] at h
    rw [← h.1]
  · cases db with
    | queryErr e =>
      simp only [getChunkData, if_neg hR, Option.some.injEq, Prod.mk.injEq] at h
      rw [← h.1]
    | columnsErr e =>
      simp only [getChunkData, if_neg hR, Option.some.injEq, Prod.mk.injEq] at h
      rw [← h.1]
    | ok columns rows =>
      have hpres := (processRows_preserves rows { entry with data_text := [] }).2.1
      rcases hpr : processRows { entry with data_text := [] } rows with ⟨pe, perr⟩
      rw [hpr] at hpres
      simp only [getChunkData, if_neg hR, hpr] at h
      cases perr with
      | some msg =>
        simp only [Option.some.injEq, Prod.mk.injEq] at h
        rw [← h.1]
        exact hpres
      | none =>
        cases columns with
        | nil => simp at h
        | cons c0 cs =>
          simp only [Option.some.injEq, Prod.mk.injEq] at h
          rw [← h.1]
          exact hpres

theorem getChunkData_error_keeps_Values (schema table : String) (db : DbChunkOutcome)
    (entry e1 : DumpEntry) (msg : String)
    (h : getChunkData schema table db entry = some (e1, some msg)) :
    e1.Values = entry.Values := by
  by_cases hR : entry.RowsCount = 0
  · simp [getChunkData, if_pos hR] at h
  · cases db with
    | queryErr e =>
      simp only [getChunkData, if_neg hR, Option.some.injEq, Prod.mk.injEq] at h
      rw [← h.1]
    | columnsErr e =>
      simp only [getChunkData, if_neg hR, Option.some.injEq, Prod.mk.injEq] at h
      rw [← h.1]
    | ok columns rows =>
      have hpres := (processRows_preserves rows { entry with data_text := [] }).1
      rcases hpr : processRows { entry with data_text := [] } rows with ⟨pe, perr⟩
      rw [hpr] at hpres
      simp only [getChunkData, if_neg hR, hpr] at h
      cases perr with
      | some m2 =>
        simp only [Option.some.injEq, Prod.mk.injEq] at h
        rw [← h.1]
        exact hpres
      | none =>
        cases columns with
        | nil => simp at h
        | cons c0 cs => simp at h

theorem getChunkData_no_panic (schema table : String) (db : DbChunkOutcome)
    (entry : DumpEntry) (hwf : wellFormedOutcome (entry, db) = true) :
    getChunkData schema table db entry ≠ none := by
  by_cases hR : entry.RowsCount = 0
  · simp [getChunkData, if_pos hR]
  · cases db with
    | queryErr e => simp [getChunkData, if_neg hR]
    | columnsErr e => simp [getChunkData, if_neg hR]
    | ok columns rows =>
      simp only [wellFormedOutcome, Bool.not_eq_true'] at hwf
      rcases hpr : processRows { entry with data_text := [] } rows with ⟨pe, perr⟩
      cases perr with
      | some m => simp [getChunkData, if_neg hR, hpr]
      | none =>
        cases columns with
        | nil => simp [List.isEmpty] at hwf
        | cons c0 cs => simp [getChunkData, if_neg hR, hpr]

theorem roundHalfEven_intCast (m : ℤ) : roundHalfEven (m : ℚ) = m := by
  simp [roundHalfEven]

theorem floor_le_roundHalfEven (x : ℚ) : ⌊x⌋ ≤ roundHalfEven x := by
  unfold roundHalfEven
  split
  · exact le_refl _
  · split
    · omega
    · split <;> omega

theorem roundHalfEven_le_ceil (x : ℚ) : roundHalfEven x ≤ ⌈x⌉ := by
  unfold roundHalfEven
  split
  next => exact Int.floor_le_ceil x
  next h =>
    have hx : (⌊x⌋ : ℚ) < x := by
      have := Int.floor_le x
      by_contra hc
      push_neg at hc
      have : x = ⌊x⌋ := le_antisymm hc this
      rw [this] at h
      simp at h
    have : ⌊x⌋ < ⌈x⌉ := Int.lt_ceil.mpr hx
    split
    · omega
    · split <;> omega

theorem roundHalfEven_eq_floor_add_one (x : ℚ) (h : 1/2 < x - ⌊x⌋) :
    roundHalfEven x = ⌊x⌋ + 1 := by
  unfold roundHalfEven
  rw [if_neg (by linarith), if_pos h]

theorem roundHalfEven_eq_floor_of (x : ℚ) (n : ℤ) (h1 : (n:ℚ) ≤ x)
    (h2 : x - n < 1/2) : roundHalfEven x = n := by
  have hfl : ⌊x⌋ = n := by
    rw [Int.floor_eq_iff]
    exact ⟨h1, by linarith⟩
  rw [roundHalfEven, hfl, if_pos h2]

theorem roundFloat64_eq_of_log_le (q : ℚ) (hq : 0 < q) (hL : Int.log 2 q ≤ 52) :
    roundFloat64 q =
      (roundHalfEven (q * 2 ^ (52 - Int.log 2 q).toNat) : ℚ) /
        2 ^ (52 - Int.log 2 q).toNat := by
  rw [roundFloat64, if_neg hq.ne']
  have hu : ((52 - Int.log 2 q).toNat : ℤ) = 52 - Int.log 2 q :=
    Int.toNat_of_nonneg (by omega)
  have h2 : (2:ℚ) ^ (Int.log 2 q - 52) = ((2:ℚ) ^ (52 - Int.log 2 q).toNat)⁻¹ := by
    rw [← zpow_natCast, hu, ← zpow_neg]
    congr 1
    omega
  rw [h2, div_inv_eq_mul, ← div_eq_mul_inv]

theorem roundFloat64_natCast (m : ℕ) (hm : m < 2 ^ 53) : roundFloat64 (m : ℚ) = m := by
  rcases Nat.eq_zero_or_pos m with rfl | hm0
  · simp [roundFloat64]
  · have hq : (0:ℚ) < m := by exact_mod_cast hm0
    have hL : Int.log 2 (m : ℚ) ≤ 52 := by
      rw [Int.log_natCast]
      exact_mod_cast Nat.le_of_lt_succ (Nat.log_lt_of_lt_pow hm0.ne' hm)
    rw [roundFloat64_eq_of_log_le _ hq hL]
    have hcast : (m : ℚ) * 2 ^ (52 - Int.log 2 (m:ℚ)).toNat
        = (((m * 2 ^ (52 - Int.log 2 (m:ℚ)).toNat : ℕ) : ℤ) : ℚ) := by
      push_cast
      ring
    rw [hcast, roundHalfEven_intCast]
    push_cast
    have h2 : ((2:ℚ) ^ (52 - Int.log 2 (m:ℚ)).toNat) ≠ 0 := by positivity
    field_simp

theorem ceil_natCast_div (a b : ℕ) (ha : 0 < a) (hb : 0 < b) :
    ⌈(a : ℚ) / b⌉ = ((a + b - 1) / b : ℕ) := by
  have hbq : (0:ℚ) < b := by exact_mod_cast hb
  have key : a ≤ b * ((a + b - 1) / b) ∧ b * ((a + b - 1) / b) < a + b := by
    obtain ⟨r, hrb, h1⟩ : ∃ r, r < b ∧ b * ((a + b - 1) / b) + r = a + b - 1 :=
      ⟨(a + b - 1) % b, Nat.mod_lt _ hb, Nat.div_add_mod _ _⟩
    generalize ht : b * ((a + b - 1) / b) = t at h1 ⊢
    omega
  have h1 : (a:ℚ) ≤ (b:ℚ) * ((a + b - 1) / b : ℕ) := by exact_mod_cast key.1
  have h2 : (b:ℚ) * ((a + b - 1) / b : ℕ) < (a:ℚ) + b := by exact_mod_cast key.2
  rw [Int.ceil_eq_iff]
  constructor
  · rw [Int.cast_natCast, lt_div_iff₀ hbq]
    nlinarith [h2]
  · rw [Int.cast_natCast, div_le_iff₀ hbq]
    nlinarith [h1]

theorem ceil_roundFloat64_div (a b : ℕ) (ha0 : 0 < a) (hb0 : 0 < b)
    (ha : a < 2 ^ 53) :
    ⌈roundFloat64 ((a : ℚ) / b)⌉ = ⌈(a : ℚ) / b⌉ := by
  have hbq : (0:ℚ) < b := by exact_mod_cast hb0
  have haq : (0:ℚ) < a := by exact_mod_cast ha0
  set q : ℚ := (a:ℚ) / b with hqdef
  have hq0 : 0 < q := div_pos haq hbq
  have hqa : q ≤ a := div_le_self haq.le (by exact_mod_cast hb0)
  have hL : Int.log 2 q ≤ 52 := by
    calc Int.log 2 q ≤ Int.log 2 (a:ℚ) := Int.log_mono_right hq0 hqa
    _ = Nat.log 2 a := Int.log_natCast 2 a
    _ ≤ 52 := by exact_mod_cast Nat.le_of_lt_succ (Nat.log_lt_of_lt_pow ha0.ne' ha)
  set u : ℕ := (52 - Int.log 2 q).toNat with hudef
  have hu : (u:ℤ) = 52 - Int.log 2 q := Int.toNat_of_nonneg (by omega)
  have hu2 : (0:ℚ) < 2 ^ u := by positivity
  rw [roundFloat64_eq_of_log_le q hq0 hL, ← hudef]
  have hkey : (b:ℚ) * 2 ^ Int.log 2 q ≤ a := by
    have h := Int.zpow_log_le_self (b := 2) (r := q) (by norm_num) hq0
    calc (b:ℚ) * 2 ^ Int.log 2 q ≤ (b:ℚ) * q :=
          mul_le_mul_of_nonneg_left h (by positivity)
    _ = a := by rw [hqdef]; field_simp
  have hprod : (2:ℚ) ^ Int.log 2 q * 2 ^ u = 2 ^ (52:ℤ) := by
    rw [← zpow_natCast (2:ℚ) u, hu, ← zpow_add₀ (two_ne_zero)]
    congr 1
    ring
  have hb2u : (b:ℚ) < 2 * 2 ^ u := by
    have hzpos : (0:ℚ) < 2 ^ Int.log 2 q := by
      apply zpow_pos
      norm_num
    have hstep : (b:ℚ) * 2 ^ (52:ℤ) ≤ (a:ℚ) * 2 ^ u := by
      calc (b:ℚ) * 2 ^ (52:ℤ) = (b:ℚ) * 2 ^ Int.log 2 q * 2 ^ u := by
            rw [mul_assoc, hprod]
      _ ≤ (a:ℚ) * 2 ^ u := mul_le_mul_of_nonneg_right hkey (by positivity)
    have h53 : (a:ℚ) * 2 ^ u < 2 ^ (53:ℤ) * 2 ^ u := by
      apply mul_lt_mul_of_pos_right _ hu2
      rw [show ((53:ℤ)) = ((53:ℕ):ℤ) by norm_num, zpow_natCast]
      exact_mod_cast ha
    have hchain : (b:ℚ) * 2 ^ (52:ℤ) < 2 ^ (53:ℤ) * 2 ^ u := lt_of_le_of_lt hstep h53
    have h5253 : (2:ℚ) ^ (53:ℤ) = 2 * 2 ^ (52:ℤ) := by
      rw [show ((53:ℤ)) = 1 + 52 by ring, zpow_add₀ (two_ne_zero)]
      norm_num
    rw [h5253] at hchain
    have h52pos : (0:ℚ) < 2 ^ (52:ℤ) := by
      apply zpow_pos
      norm_num
    nlinarith [hchain]
  set K : ℤ := ⌈q⌉ with hKdef
  by_cases hint : (K:ℚ) = q
  · have hx : q * 2 ^ u = ((K * 2 ^ u : ℤ) : ℚ) := by
      rw [← hint]
      push_cast
      ring
    rw [hx, roundHalfEven_intCast]
    have hdiv : ((K * 2 ^ u : ℤ) : ℚ) / 2 ^ u = (K:ℚ) := by
      push_cast
      field_simp
    rw [hdiv, Int.ceil_intCast]
  · have hqK : q < K := lt_of_le_of_ne (Int.le_ceil q) (fun h => hint h.symm)
    have hKq : (K:ℚ) - 1 < q := by
      have := Int.ceil_lt_add_one q
      rw [← hKdef] at this
      linarith
    have hub : roundHalfEven (q * 2 ^ u) ≤ K * 2 ^ u := by
      refine le_trans (roundHalfEven_le_ceil _) ?_
      rw [Int.ceil_le]
      push_cast
      exact mul_le_mul_of_nonneg_right hqK.le (by positivity)
    have hfl : ((K - 1) * 2 ^ u : ℤ) ≤ ⌊q * 2 ^ u⌋ := by
      rw [Int.le_floor]
      push_cast
      exact mul_le_mul_of_nonneg_right hKq.le (by positivity)
    have hlb : (K - 1) * 2 ^ u < roundHalfEven (q * 2 ^ u) := by
      rcases eq_or_lt_of_le hfl with heq | hlt
      · have hZ : (K - 1) * (b:ℤ) + 1 ≤ (a:ℤ) := by
          rw [Int.add_one_le_iff]
          have hq' : ((K:ℚ) - 1) * b < a := by
            rw [← lt_div_iff₀ hbq, ← hqdef]
            exact hKq
          exact_mod_cast hq'
        have hstep1 : (1:ℚ)/b ≤ q - ((K:ℚ) - 1) := by
          rw [div_le_iff₀ hbq]
          have expand : (q - ((K:ℚ) - 1)) * b = a - ((K:ℚ) - 1) * b := by
            rw [hqdef]
            field_simp
            ring
          rw [expand]
          have hZq : ((K:ℚ) - 1) * b + 1 ≤ a := by exact_mod_cast hZ
          linarith
        have hfrac : 1/2 < q * 2 ^ u - ⌊q * 2 ^ u⌋ := by
          rw [← heq]
          push_cast
          have hge : (1:ℚ)/b * 2 ^ u ≤ (q - ((K:ℚ) - 1)) * 2 ^ u :=
            mul_le_mul_of_nonneg_right hstep1 (by positivity)
          have hhalf : (1:ℚ)/2 < 1/b * 2 ^ u := by
            rw [div_mul_eq_mul_div, one_mul, lt_div_iff₀ hbq]
            linarith
          nlinarith [hge, hhalf]
        rw [roundHalfEven_eq_floor_add_one _ hfrac, ← heq]
        omega
      · exact lt_of_lt_of_le hlt (floor_le_roundHalfEven _)
    rw [Int.ceil_eq_iff]
    constructor
    · rw [lt_div_iff₀ hu2]
      exact_mod_cast hlb
    · rw [div_le_iff₀ hu2]
      exact_mod_cast hub

theorem roundFloat64_zero : roundFloat64 0 = 0 := by
  simp [roundFloat64]

theorem goCeilDiv_zero (C : ℕ) : goCeilDiv 0 C = 0 := by
  rw [goCeilDiv, Nat.cast_zero, roundFloat64_zero, zero_div, roundFloat64_zero]
  simp

theorem goCeilDiv_eq (R C : ℕ) (hC : 0 < C) (hR : R < 2 ^ 53) (hC53 : C < 2 ^ 53) :
    goCeilDiv R C = (R + C - 1) / C := by
  rcases Nat.eq_zero_or_pos R with rfl | hR0
  · rw [goCeilDiv_zero]
    symm
    apply Nat.div_eq_of_lt
    omega
  · rw [goCeilDiv, roundFloat64_natCast R hR, roundFloat64_natCast C hC53,
        ceil_roundFloat64_div R C hR0 hC hR, ceil_natCast_div R C hR0 hC]
    exact Int.toNat_natCast _

theorem goCeilDiv_big : goCeilDiv (10 ^ 18 + 1) 1000 = 10 ^ 15 := by
  have hA : roundFloat64 ((10 ^ 18 + 1 : ℕ) : ℚ) = 10 ^ 18 := by
    have hlog : Int.log 2 ((10 ^ 18 + 1 : ℕ) : ℚ) = 59 := by
      rw [Int.log_natCast]
      exact_mod_cast Nat.log_eq_of_pow_le_of_lt_pow (by norm_num) (by norm_num)
    rw [roundFloat64, if_neg (by norm_num), hlog]
    have h7 : (59 - 52 : ℤ) = 7 := by norm_num
    rw [h7, show (2:ℚ) ^ (7:ℤ) = 128 by norm_num]
    rw [roundHalfEven_eq_floor_of (((10 ^ 18 + 1 : ℕ) : ℚ) / 128) 7812500000000000
      (by push_cast; norm_num) (by push_cast; norm_num)]
    push_cast
    norm_num
  have hB : roundFloat64 ((1000 : ℕ) : ℚ) = 1000 := by
    rw [roundFloat64_natCast 1000 (by norm_num)]
    norm_num
  have hq : roundFloat64 ((10 ^ 18 + 1 : ℕ) : ℚ) / roundFloat64 ((1000 : ℕ) : ℚ)
      = ((10 ^ 15 : ℕ) : ℚ) := by
    rw [hA, hB]
    push_cast
    norm_num
  rw [goCeilDiv, hq, roundFloat64_natCast _ (by norm_num), Int.ceil_natCast]
  exact Int.toNat_natCast _

/-- C1 (amended): for row count R and chunk size C > 0, both below 2^53
(the range on which the planner's binary64 arithmetic is exact — every
realistic table), `getDumpEntries` produces exactly `max 1 (ceil (R / C))`
entries; the i-th entry (0-based) has offset `i * C`, counter 0 and
rows-count R, and offsets are strictly ascending, so the planned ranges
neither overlap nor skip rows.  Beyond 2^53 the float64 conversion can
round the row count down and drop the final chunk (see the
counterexample). -/
theorem getDumpEntries_plan_correct (R C : Nat) (sysVar dbSQL tbSQL : String)
    (hC : 0 < C) (hR53 : R < 2 ^ 53) (hC53 : C < 2 ^ 53) :
    (getDumpEntries R C sysVar dbSQL tbSQL).length = max 1 ((R + C - 1) / C) ∧
    (getDumpEntries R C sysVar dbSQL tbSQL).map DumpEntry.Offset =
      (List.range (getDumpEntries R C sysVar dbSQL tbSQL).length).map (fun i => i * C) ∧
    (∀ e ∈ getDumpEntries R C sysVar dbSQL tbSQL, e.Counter = 0 ∧ e.RowsCount = R) ∧
    List.Pairwise (fun a b => a.Offset < b.Offset) (getDumpEntries R C sysVar dbSQL tbSQL) := by
  refine ⟨?_, ?_, ?_, ?_⟩
  · simp only [getDumpEntries, List.length_map, List.length_range]
    rw [goCeilDiv_eq R C hC hR53 hC53]
    generalize (R + C - 1) / C = n
    split <;> omega
  · simp only [getDumpEntries, List.map_map, List.length_map, List.length_range]
    rfl
  · intro e he
    simp only [getDumpEntries, List.mem_map] at he
    obtain ⟨i, _, rfl⟩ := he
    exact ⟨rfl, rfl⟩
  · simp only [getDumpEntries, List.pairwise_map]
    exact (List.pairwise_lt_range _).imp
      (fun hij => Nat.mul_lt_mul_of_pos_right hij hC)

/-- Witness for C1: a 2500-row table with chunk size 1000 plans three
jobs at offsets 0, 1000, 2000, each with counter 0 and rows-count 2500. -/
theorem getDumpEntries_plan_correct_witness :
    (0 < 1000 ∧ 2500 < 2 ^ 53 ∧ 1000 < 2 ^ 53) ∧
    ((getDumpEntries 2500 1000 "sv" "cd" "ct").length = max 1 ((2500 + 1000 - 1) / 1000) ∧
     (getDumpEntries 2500 1000 "sv" "cd" "ct").map DumpEntry.Offset =
       (List.range (getDumpEntries 2500 1000 "sv" "cd" "ct").length).map (fun i => i * 1000) ∧
     (∀ e ∈ getDumpEntries 2500 1000 "sv" "cd" "ct", e.Counter = 0 ∧ e.RowsCount = 2500) ∧
     List.Pairwise (fun a b => a.Offset < b.Offset) (getDumpEntries 2500 1000 "sv" "cd" "ct")) :=
  ⟨⟨by norm_num, by norm_num, by norm_num⟩,
   getDumpEntries_plan_correct 2500 1000 "sv" "cd" "ct" (by norm_num) (by norm_num)
     (by norm_num)⟩

/-- C1 (counterexample): at row count 10^18 + 1 with chunk size 1000 the
planner computes the chunk count in binary64; float64(10^18 + 1) rounds
down to 10^18 (consecutive doubles are 128 apart at that magnitude), so
the code plans 10^15 jobs although max(1, ceil(R / C)) = 10^15 + 1 — the
final row is covered by no chunk. -/
theorem getDumpEntries_float_ceil_diverges :
    (getDumpEntries (10 ^ 18 + 1) 1000 "sv" "cd" "ct").length = 10 ^ 15 ∧
    max 1 ((10 ^ 18 + 1 + 1000 - 1) / 1000) = 10 ^ 15 + 1 ∧
    (10 ^ 15 : Nat) ≠ 10 ^ 15 + 1 := by
  refine ⟨?_, by norm_num, by norm_num⟩
  simp only [getDumpEntries, List.length_map, List.length_range]
  rw [goCeilDiv_big]
  norm_num

/-- C2 (code bug evaluated at the failing input): the plain ASCII value
`u` contains no backslash, quote, or Unicode quote/backslash look-alike,
yet `needsQuoting` accepts it (the set literal's broken `uff3c` escape
put `u`, `f`, `3`, `c` in the set) and the encoder inserts a backslash,
producing `'\u'` instead of the claimed `'u'`. -/
theorem encoder_escapes_plain_ascii_u :
    needsQuoting "u" = true ∧
    encodeValue (some "u") = "\u0027\u005cu\u0027" ∧
    encodeValue (some "u") ≠ "\u0027u\u0027" := by decide

/-- C3 (code bug evaluated at the failing input, plus the example that
does hold): `O'Brien` encodes to `'O\'Brien'` as claimed, but the value
`f'` encodes to `'\f\''` — the ASCII `f`, which is in the claimed set's
complement, is escaped too, because of the broken `uff3c` escape in the
set literal; the claimed result is `'f\''`. -/
theorem encoder_obrien_and_ascii_f :
    encodeValue (some "O\u0027Brien") = "\u0027O\u005c\u0027Brien\u0027" ∧
    encodeValue (some "f\u0027") = "\u0027\u005cf\u005c\u0027\u0027" ∧
    encodeValue (some "f\u0027") ≠ "\u0027f\u005c\u0027\u0027" := by decide

/-- C4: a NULL column encodes to the bare unquoted token `NULL`; an
empty string encodes to `''` (a quoted empty string); the two encodings
are distinct. -/
theorem encodeValue_null_vs_empty :
    encodeValue none = "NULL" ∧
    encodeValue (some "") = "\u0027\u0027" ∧
    encodeValue none ≠ encodeValue (some "") := by decide

/-- C5: for a chunk whose range query succeeds with driver column order
`c0 :: cs` and every row scanned, `getChunkData` stores exactly one
statement of the upsert shape — insert into schema.table, the driver's
column list, the value tuples encoded from the rows in that same column
order, and an on-duplicate-key-update clause on the first driver column
`c0` — and returns no error. -/
theorem getChunkData_builds_upsert (schema table : String) (c0 : String)
    (cs : List String) (rows : List DbRow) (entry : DumpEntry)
    (hR : entry.RowsCount ≠ 0) :
    ∃ e1, getChunkData schema table
        (DbChunkOutcome.ok (c0 :: cs) (rows.map Except.ok)) entry = some (e1, none) ∧
      e1.Values =
        "\n\t\t\tinsert into " ++ EscapeName schema ++ "." ++ EscapeName table ++
        "\n\t\t\t\t(" ++ String.intercalate "," (c0 :: cs) ++ ")" ++
        "\n\t\t\tvalues\n\t\t\t\t" ++
        String.intercalate "," (rows.map encodeRow) ++
        "\n\t\t\ton duplicate key update\n\t\t\t\t" ++ c0 ++ "=VALUES(" ++ c0 ++
        ")\n\t\t" ∧
      e1.data_text = rows.map encodeRow ∧
      e1.Counter = entry.Counter + rows.length :=
  ⟨_, getChunkData_rows_ok schema table c0 cs rows entry hR, rfl, rfl, rfl⟩

/-- Witness for C5: one chunk of a two-column table with a single row
(one non-NULL cell, one NULL cell). -/
theorem getChunkData_builds_upsert_witness :
    sampleEntry.RowsCount ≠ 0 ∧
    (∃ e1, getChunkData "db" "tb"
        (DbChunkOutcome.ok ("a" :: ["b"]) (([[some "x", none]] : List DbRow).map Except.ok))
        sampleEntry = some (e1, none) ∧
      e1.Values =
        "\n\t\t\tinsert into " ++ EscapeName "db" ++ "." ++ EscapeName "tb" ++
        "\n\t\t\t\t(" ++ String.intercalate "," ("a" :: ["b"]) ++ ")" ++
        "\n\t\t\tvalues\n\t\t\t\t" ++
        String.intercalate "," (([[some "x", none]] : List DbRow).map encodeRow) ++
        "\n\t\t\ton duplicate key update\n\t\t\t\t" ++ "a" ++ "=VALUES(" ++ "a" ++
        ")\n\t\t" ∧
      e1.data_text = ([[some "x", none]] : List DbRow).map encodeRow ∧
      e1.Counter = sampleEntry.Counter + ([[some "x", none]] : List DbRow).length) :=
  ⟨by decide,
   getChunkData_builds_upsert "db" "tb" "a" ["b"] [[some "x", none]] sampleEntry (by decide)⟩

/-- C7 (counterexample): a chunk whose second row scan fails still keeps
the first row's encoded tuple in `data_text` and a partial counter of 1
in the emitted result — the partially encoded rows and the partial row
count survive in the failed chunk's result, only the assembled statement
is missing. -/
theorem getChunkData_partial_state_survives :
    getChunkData "db" "tb"
        (DbChunkOutcome.ok ["a"] [Except.ok [some "x"], Except.error "boom"]) sampleEntry =
      some ({ sampleEntry with data_text := ["(\u0027x\u0027)"], Counter := 1 },
            some "boom") ∧
    (1 : Nat) ≠ 0 ∧ (["(\u0027x\u0027)"] : List String) ≠ ([] : List String) := by decide

/-- C7 (amended): on the first scan failure, processing stops (rows after
the failure are never visited), the error is returned and the statement
field keeps its prior value (empty for a fresh planner entry, hence
unusable) — but the rows encoded before the failure remain in
`data_text` and the counter keeps the partial count. -/
theorem getChunkData_first_failure_partial_state (schema table : String)
    (columns : List String) (good : List DbRow) (e : String)
    (rest : List (Except String DbRow)) (entry : DumpEntry)
    (hR : entry.RowsCount ≠ 0) :
    ∃ e1, getChunkData schema table
        (DbChunkOutcome.ok columns (good.map Except.ok ++ Except.error e :: rest)) entry =
        some (e1, some e) ∧
      e1.Values = entry.Values ∧
      e1.data_text = good.map encodeRow ∧
      e1.Counter = entry.Counter + good.length :=
  ⟨_, getChunkData_rows_first_error schema table columns good e rest entry hR, rfl, rfl, rfl⟩

/-- Witness for C7 (amended): one good row, then a scan failure, with one
further row pending behind the failure. -/
theorem getChunkData_first_failure_partial_state_witness :
    sampleEntry.RowsCount ≠ 0 ∧
    (∃ e1, getChunkData "db" "tb"
        (DbChunkOutcome.ok ["a"]
          (([[some "x"]] : List DbRow).map Except.ok ++
            Except.error "boom" :: [Except.ok [some "y"]])) sampleEntry =
        some (e1, some "boom") ∧
      e1.Values = sampleEntry.Values ∧
      e1.data_text = ([[some "x"]] : List DbRow).map encodeRow ∧
      e1.Counter = sampleEntry.Counter + ([[some "x"]] : List DbRow).length) :=
  ⟨by decide,
   getChunkData_first_failure_partial_state "db" "tb" ["a"] [[some "x"]] "boom"
     [Except.ok [some "y"]] sampleEntry (by decide)⟩

/-- C8: for a zero-row table and any chunk size C > 0, planning yields
exactly one job; extracting that job issues no query (the result is the
same entry for every driver outcome), returns no error, and leaves the
statement field empty. -/
theorem zero_rowcount_one_job_no_query (C : Nat) (sysVar dbSQL tbSQL : String)
    (hC : 0 < C) :
    (getDumpEntries 0 C sysVar dbSQL tbSQL).length = 1 ∧
    ∀ e ∈ getDumpEntries 0 C sysVar dbSQL tbSQL,
      e.Values = "" ∧ e.err = none ∧
      ∀ (schema table : String) (db : DbChunkOutcome),
        getChunkData schema table db e = some (e, none) := by
  have hcount : goCeilDiv 0 C = 0 := goCeilDiv_zero C
  constructor
  · simp [getDumpEntries, hcount]
  · intro e he
    simp only [getDumpEntries, hcount, List.mem_map] at he
    obtain ⟨i, _, rfl⟩ := he
    refine ⟨rfl, rfl, ?_⟩
    intro schema table db
    simp [getChunkData]

/-- Witness for C8: chunk size 1000, row count 0. -/
theorem zero_rowcount_one_job_no_query_witness :
    0 < 1000 ∧
    ((getDumpEntries 0 1000 "sv" "cd" "ct").length = 1 ∧
     ∀ e ∈ getDumpEntries 0 1000 "sv" "cd" "ct",
       e.Values = "" ∧ e.err = none ∧
       ∀ (schema table : String) (db : DbChunkOutcome),
         getChunkData schema table db e = some (e, none)) :=
  ⟨by decide, zero_rowcount_one_job_no_query 1000 "sv" "cd" "ct" (by decide)⟩

/-- C9: with planning successful, `Dump` returns nil, starts exactly
`min w (number of planned chunks)` (clamped at zero) workers, and when
that clamp is below 1 it is a no-op: nil error, zero workers, zero jobs
dispatched. -/
theorem Dump_clamps_and_noop (sysVar schema table tbSQL : String) (C : Nat)
    (w : Int) (total : Nat) :
    (Dump sysVar w schema table C (Except.ok total) (Except.ok tbSQL)).error = none ∧
    (Dump sysVar w schema table C (Except.ok total) (Except.ok tbSQL)).workersStarted =
      (min w ((getDumpEntries total C sysVar ("CREATE DATABASE " ++ schema)
        tbSQL).length : Int)).toNat ∧
    (min w ((getDumpEntries total C sysVar ("CREATE DATABASE " ++ schema)
        tbSQL).length : Int) < 1 →
      Dump sysVar w schema table C (Except.ok total) (Except.ok tbSQL) =
        ⟨none, 0, 0⟩) := by
  simp only [Dump]
  split
  next h =>
    refine ⟨rfl, ?_, fun _ => rfl⟩
    rw [Int.toNat_of_nonpos (by omega)]
  next h =>
    exact ⟨rfl, rfl, fun hlt => absurd hlt h⟩

/-- Witness for C9: requested concurrency 0 over a three-chunk plan
clamps below 1 and the dump is a successful no-op. -/
theorem Dump_clamps_and_noop_witness :
    min (0 : Int) ((getDumpEntries 2500 1000 "sv" ("CREATE DATABASE " ++ "s")
      "tb").length : Int) < 1 ∧
    Dump "sv" 0 "s" "t" 1000 (Except.ok 2500) (Except.ok "tb") = ⟨none, 0, 0⟩ := by
  have hlen : (getDumpEntries 2500 1000 "sv" ("CREATE DATABASE " ++ "s")
      "tb").length = 3 := by
    simp only [getDumpEntries, List.length_map, List.length_range]
    rw [goCeilDiv_eq 2500 1000 (by norm_num) (by norm_num) (by norm_num)]
    norm_num
  constructor
  · rw [hlen]
    norm_num
  · exact (Dump_clamps_and_noop "sv" "s" "t" "tb" 1000 0 2500).2.2
      (by rw [hlen]; norm_num)

/-- C10: a job with a positive rows-count whose range query succeeds with
zero rows produces no error and stores the non-empty upsert statement
with an empty tuple list. -/
theorem getChunkData_empty_chunk (schema table : String) (c0 : String)
    (cs : List String) (entry : DumpEntry) (hR : entry.RowsCount ≠ 0) :
    getChunkData schema table (DbChunkOutcome.ok (c0 :: cs) []) entry =
      some ({ entry with data_text := [],
                         Values := insertStatement schema table (c0 :: cs) [] c0 },
            none) ∧
    insertStatement schema table (c0 :: cs) [] c0 ≠ "" := by
  constructor
  · have h := getChunkData_rows_ok schema table c0 cs [] entry hR
    simpa using h
  · exact insertStatement_ne_empty schema table c0 (c0 :: cs) []

/-- Witness for C10: a two-column table chunk whose query returns no
rows. -/
theorem getChunkData_empty_chunk_witness :
    sampleEntry.RowsCount ≠ 0 ∧
    (getChunkData "db" "tb" (DbChunkOutcome.ok ("a" :: ["b"]) []) sampleEntry =
      some ({ sampleEntry with
                data_text := [],
                Values := insertStatement "db" "tb" ("a" :: ["b"]) [] "a" },
            none) ∧
     insertStatement "db" "tb" ("a" :: ["b"]) [] "a" ≠ "") :=
  ⟨by decide, getChunkData_empty_chunk "db" "tb" "a" ["b"] sampleEntry (by decide)⟩

theorem worker_cons_eq (schema table : String) (p : DumpEntry × DbChunkOutcome)
    (ps : List (DumpEntry × DbChunkOutcome)) (r : DumpEntry) (rs : List DumpEntry)
    (h1 : workerStep schema table p = some r)
    (h2 : worker schema table ps = some rs) :
    worker schema table (p :: ps) = some (r :: rs) := by
  simp only [worker] at h2 ⊢
  rw [List.mapM_cons, h1, h2]
  rfl

/-- C6: for every job the worker drains (the driver reporting at least
one column on each successful query), it emits exactly one result, in
job order, without panicking; a result's `err` field is non-nil exactly
when `getChunkData` failed for that job, and a result with a non-nil
`err` carries an empty statement field. -/
theorem worker_one_result_per_job (schema table : String)
    (jobs : List (DumpEntry × DbChunkOutcome))
    (hwf : ∀ p ∈ jobs, wellFormedOutcome p = true)
    (hinit : ∀ p ∈ jobs, p.1.err = none ∧ p.1.Values = "") :
    ∃ results, worker schema table jobs = some results ∧
      results.length = jobs.length ∧
      List.Forall₂ (fun r p =>
        (r.err.isSome ↔ (extractionError schema table p).isSome) ∧
        (r.err.isSome → r.Values = "")) results jobs := by
  induction jobs with
  | nil => exact ⟨[], rfl, rfl, List.Forall₂.nil⟩
  | cons p ps ih =>
    obtain ⟨rs, hrs, hlen, hall⟩ :=
      ih (fun q hq => hwf q (List.mem_cons_of_mem _ hq))
         (fun q hq => hinit q (List.mem_cons_of_mem _ hq))
    have hwfp := hwf p (List.mem_cons_self _ _)
    have hinitp := hinit p (List.mem_cons_self _ _)
    rcases hgc : getChunkData schema table p.2 p.1 with _ | ⟨e1, err1⟩
    · exact absurd hgc (getChunkData_no_panic schema table p.2 p.1 hwfp)
    · have herr := getChunkData_preserves_err schema table p.2 p.1 e1 err1 hgc
      rw [hinitp.1] at herr
      cases err1 with
      | none =>
        refine ⟨e1 :: rs,
          worker_cons_eq schema table p ps e1 rs (by simp [workerStep, hgc]) hrs,
          by simp [hlen], List.Forall₂.cons ⟨?_, ?_⟩ hall⟩
        · simp [extractionError, hgc, herr]
        · intro hsome
          rw [herr] at hsome
          simp at hsome
      | some msg =>
        have hv := getChunkData_error_keeps_Values schema table p.2 p.1 e1 msg hgc
        refine ⟨{ e1 with err := some msg } :: rs,
          worker_cons_eq schema table p ps { e1 with err := some msg } rs
            (by simp [workerStep, hgc]) hrs,
          by simp [hlen], List.Forall₂.cons ⟨?_, ?_⟩ hall⟩
        · simp [extractionError, hgc]
        · intro _
          rw [show ({ e1 with err := some msg } : DumpEntry).Values = e1.Values from rfl, hv]
          exact hinitp.2

/-- Witness for C6: two jobs, the first succeeding with one row, the
second failing its range query; the worker emits exactly two results. -/
theorem worker_one_result_per_job_witness :
    (∀ p ∈ [(sampleEntry, DbChunkOutcome.ok ["a"] [Except.ok [some "x"]]),
            (sampleEntry, DbChunkOutcome.queryErr "down")],
      wellFormedOutcome p = true) ∧
    (∀ p ∈ [(sampleEntry, DbChunkOutcome.ok ["a"] [Except.ok [some "x"]]),
            (sampleEntry, DbChunkOutcome.queryErr "down")],
      p.1.err = none ∧ p.1.Values = "") ∧
    (∃ results, worker "db" "tb"
        [(sampleEntry, DbChunkOutcome.ok ["a"] [Except.ok [some "x"]]),
         (sampleEntry, DbChunkOutcome.queryErr "down")] = some results ∧
      results.length =
        ([(sampleEntry, DbChunkOutcome.ok ["a"] [Except.ok [some "x"]]),
          (sampleEntry, DbChunkOutcome.queryErr "down")] :
            List (DumpEntry × DbChunkOutcome)).length ∧
      List.Forall₂ (fun r p =>
        (r.err.isSome ↔ (extractionError "db" "tb" p).isSome) ∧
        (r.err.isSome → r.Values = ""))
        results
        [(sampleEntry, DbChunkOutcome.ok ["a"] [Except.ok [some "x"]]),
         (sampleEntry, DbChunkOutcome.queryErr "down")]) := by
  refine ⟨by simp [wellFormedOutcome], by simp [sampleEntry], ?_⟩
  exact worker_one_result_per_job "db" "tb"
    [(sampleEntry, DbChunkOutcome.ok ["a"] [Except.ok [some "x"]]),
     (sampleEntry, DbChunkOutcome.queryErr "down")]
    (by simp [wellFormedOutcome]) (by simp [sampleEntry])
